import Mathlib

/-!
Verification of the resume-scanner backend (`src/server.js`).

The development shallowly embeds the JavaScript source: strings are `String`
(lists of `Char` underneath), JS regular-expression searches over a string are
modelled as leftmost scans of character-list parsers, network and PDF effects
are oracle functions supplied through an environment, and the socket handler
`startProcessing` is a pure function from the submitted batch to the list of
emitted events plus the log of attempted network calls.

Both regexes of the source (`googleDriveRegex` and the rating / summary
extractors in `compareWithLLM`) consist of literal alternations followed by
character-class repetitions, so the usual backtracking semantics coincides
with the deterministic parsers used here: at each start position the optional
and alternative branches begin with distinct required characters, hence at
most one branch can succeed, and the greedy repetitions (`\s*`, `\d+`, `.*`,
`[a-zA-Z0-9_-]+`) are final or followed by characters outside the class, so
giving characters back can never rescue a failed continuation.
-/

/-! ## JavaScript primitives -/

/-- JS `\s` character class and the character set removed by `String.prototype.trim`
(WhiteSpace together with LineTerminator). -/
def isJsSpace (c : Char) : Bool :=
  c == ' ' || c == '\t' || c == '\n' || c == '\r' || c == '\u000B' || c == '\u000C' ||
  c == ' ' || c == ' ' || (0x2000 ≤ c.toNat && c.toNat ≤ 0x200A) ||
  c == ' ' || c == ' ' || c == ' ' || c == ' ' ||
  c == '　' || c == '﻿'

/-- JS LineTerminator characters, which `.` in a regex does not match. -/
def isLineTerm (c : Char) : Bool :=
  c == '\n' || c == '\r' || c == ' ' || c == ' '

/-- `str.trim()` on the underlying character list. -/
def jsTrim (l : List Char) : List Char :=
  ((l.dropWhile isJsSpace).reverse.dropWhile isJsSpace).reverse

/-- Truthiness of a nullable JS string: `null`/`undefined` and `""` are falsy. -/
def jsTruthy : Option String → Bool
  | none => false
  | some s => s != ""

/-- JS `a || b` for a nullable string `a` with a string default `b`. -/
def jsOr (a : Option String) (b : String) : String :=
  match a with
  | none => b
  | some s => if s = "" then b else s

/-- `parseInt(ds, 10)` on a non-empty run of decimal digits. -/
def digitsToNat (ds : List Char) : Nat :=
  ds.foldl (fun a c => 10 * a + (c.toNat - '0'.toNat)) 0

/-! ## Literal matching and leftmost regex scans -/

/-- Match a literal character sequence at the head of the input, returning the rest. -/
def matchLit : List Char → List Char → Option (List Char)
  | [], l => some l
  | _ :: _, [] => none
  | c :: cs, x :: xs => bif c == x then matchLit cs xs else none

/-- Case-insensitive character comparison (ASCII folding), for `/i` regexes. -/
def ciEqChar (a b : Char) : Bool := a.toLower == b.toLower

/-- Case-insensitively match a literal at the head of the input, returning the rest. -/
def matchCI : List Char → List Char → Option (List Char)
  | [], l => some l
  | _ :: _, [] => none
  | c :: cs, x :: xs => bif ciEqChar c x then matchCI cs xs else none

/-- `ciList lit l` holds when `l` spells the literal `lit` up to ASCII case. -/
def ciList : List Char → List Char → Bool
  | [], [] => true
  | c :: cs, x :: xs => ciEqChar c x && ciList cs xs
  | _, _ => false

/-- Leftmost-match semantics of `String.prototype.match` without the `g` flag:
try the positional parser at every start position, left to right. -/
def scanFor (p : List Char → Option (List Char)) : List Char → Option (List Char)
  | [] => p []
  | l@(_ :: rest) =>
    match p l with
    | some r => some r
    | none => scanFor p rest

/-- `containsCI l lit`: some position of `l` spells `lit` up to case; used to state
when a label such as `Rating:` occurs in a response. -/
def containsCI (l lit : List Char) : Bool :=
  (scanFor (matchCI lit) l).isSome

/-! ## Link Resolver (`googleDriveRegex`, server.js lines 45-59) -/

/-- The file-id character class `[a-zA-Z0-9_-]` of `googleDriveRegex`. -/
def idChar (c : Char) : Bool := c.isAlpha || c.isDigit || c == '_' || c == '-'

/-- The non-capturing head of `googleDriveRegex`
`(?:https?:\/\/(?:www\.)?drive\.google\.com\/(?:file\/d\/|open\?id=))`
expanded into its eight literal alternatives in backtracking order (greedy
`s?`, greedy `(?:www\.)?`, then the `file/d/ | open?id=` alternation). -/
def driveLits : List (List Char) :=
  ["https://www.drive.google.com/file/d/", "https://www.drive.google.com/open?id=",
   "https://drive.google.com/file/d/", "https://drive.google.com/open?id=",
   "http://www.drive.google.com/file/d/", "http://www.drive.google.com/open?id=",
   "http://drive.google.com/file/d/", "http://drive.google.com/open?id="].map String.data

/-- One alternative of `googleDriveRegex` at a fixed position: the literal head,
then the capture `([a-zA-Z0-9_-]+)` as a maximal non-empty run. -/
def tryDrive (lit : List Char) (l : List Char) : Option (List Char) :=
  match matchLit lit l with
  | none => none
  | some rest =>
    let ds := rest.takeWhile idChar
    bif ds.isEmpty then none else some ds

/-- Try a list of literal alternatives in order. -/
def tryLits : List (List Char) → List Char → Option (List Char)
  | [], _ => none
  | lit :: rest, l => (tryDrive lit l).orElse fun _ => tryLits rest l

/-- `googleDriveRegex` at a fixed start position, returning capture group 1. -/
def parseDriveAt (l : List Char) : Option (List Char) := tryLits driveLits l

/-- `resume_link.match(googleDriveRegex)`, returning the captured file id. -/
def googleDriveMatch (s : String) : Option String :=
  (scanFor parseDriveAt s.data).map String.mk

/-- The link rewriting of `extractPdfData` (server.js lines 45-59): a matching
cloud-drive link is rewritten to the direct-download form, anything else is
passed through unchanged. -/
def resolveLink (link : String) : String :=
  match googleDriveMatch link with
  | some fileId => "https://drive.google.com/uc?export=download&id=" ++ fileId
  | none => link

/-! ## Relevance Scorer response parsing (server.js lines 149-175) -/

/-- The greedy optional `\*?`: consume one leading asterisk when present. -/
def starStrip (l : List Char) : List Char :=
  match l with
  | c :: t => bif c == '*' then t else l
  | [] => l

/-- `/(?:Numeric )?Rating:\s*\*?(\d+)(?:\/\d+)?/i` at a fixed start position,
returning capture group 1 (the digit run). The optional branch is expanded into
the two case-insensitive literals `Numeric Rating:` and `Rating:`; the trailing
non-capturing `(?:\/\d+)?` follows the capture and affects neither whether the
regex matches nor the captured digits, so it is not modelled. -/
def parseRatingAt (l : List Char) : Option (List Char) :=
  match (matchCI "numeric rating:".data l).orElse fun _ => matchCI "rating:".data l with
  | none => none
  | some rest =>
    bif ((starStrip (rest.dropWhile isJsSpace)).takeWhile Char.isDigit).isEmpty then none
    else some ((starStrip (rest.dropWhile isJsSpace)).takeWhile Char.isDigit)

/-- `/(?:Summarized Report|Summary):\s*(.*)/i` at a fixed start position,
returning capture group 1 (everything after the label and whitespace, up to a
line terminator or the end of input). -/
def parseSummaryAt (l : List Char) : Option (List Char) :=
  match (matchCI "summarized report:".data l).orElse fun _ => matchCI "summary:".data l with
  | none => none
  | some rest =>
    some ((rest.dropWhile isJsSpace).takeWhile fun c => !(isLineTerm c))

/-- `ScoreResult`: `{ rating, summary }` as returned by `compareWithLLM`. -/
structure ScoreResult where
  rating : Int
  summary : String
deriving DecidableEq

/-- The parsing of a raw backend response inside `compareWithLLM` (server.js
lines 149-175): regex-extract the rating, force it to 0 when absent or outside
`[0,10]` (`parseInt` of a non-empty digit capture is never `NaN`, so the `isNaN`
disjunct of the source check cannot fire), and regex-extract the trimmed
summary with a fixed fallback text. -/
def parseLLMResponse (text : String) : ScoreResult :=
  let rating : Int :=
    match scanFor parseRatingAt text.data with
    | some ds =>
      let r : Int := (digitsToNat ds : Int)
      if r < 0 ∨ 10 < r then 0 else r
    | none => 0
  let summary : String :=
    match scanFor parseSummaryAt text.data with
    | some cap => String.mk (jsTrim cap)
    | none => "Could not parse summary from LLM response."
  ⟨rating, summary⟩

/-- `AcquisitionResult`: `{ text: string | null }` from `extractPdfData`. -/
structure AcqResult where
  text : Option String
deriving DecidableEq

/-- `compareWithLLM(resumeContent, jobDescription)` (server.js lines 102-183).
`configured` models `model !== null`; `resp` is the oracle for the backend
call, `none` meaning `generateContent` threw (caught as the API-error result).
The returned `Bool` records whether the backend call was attempted. The
`!resumeContent` half of the source guard cannot fire: the caller always
passes an object. The prompt built from the truncated texts only feeds the
oracle and is not modelled. -/
def compareWithLLM (configured : Bool) (resp : Option String)
    (resumeContent : AcqResult) (jobDescription : String) : ScoreResult × Bool :=
  bif !configured then (⟨0, "LLM not configured."⟩, false)
  else bif !(jsTruthy resumeContent.text) then
    (⟨0, "Missing resume content for LLM analysis."⟩, false)
  else
    match resp with
    | none => (⟨0, "Failed to get LLM report due to API error."⟩, true)
    | some text => (parseLLMResponse text, true)

/-! ## Document acquisition (`extractPdfData`, server.js lines 35-100) -/

/-- Raw PDF bytes, abstract. -/
abbrev Bytes := List Nat

/-- Effect oracles for one job. `fetchBytes` returns `none` on a network error,
timeout, or non-ok response status; `parsePdf` returns `none` when `pdfParse`
throws and otherwise the (nullable) `data.text` field; `llmResponse i` is the
backend response for row `i`, `none` meaning the call threw; `configured`
models `model !== null`. -/
structure Env where
  fetchBytes : String → Option Bytes
  parsePdf : Bytes → Option (Option String)
  llmResponse : Nat → Option String
  configured : Bool

/-- `extractPdfData(resume_link)` (server.js lines 35-100). Returns the
acquisition result together with the list of URLs actually fetched (the
network-call log). An empty or absent link short-circuits with no fetch; the
link is rewritten by `resolveLink`; a fetch or parse failure, or text that is
empty after trimming, yields `{text: null}`. -/
def extractPdfData (env : Env) (resume_link : Option String) : AcqResult × List String :=
  bif !(jsTruthy resume_link) then (⟨none⟩, [])
  else
    let eff := resolveLink (resume_link.getD "")
    match env.fetchBytes eff with
    | none => (⟨none⟩, [eff])
    | some buf =>
      match env.parsePdf buf with
      | none => (⟨none⟩, [eff])
      | some extractedText =>
        bif jsTruthy extractedText && decide (0 < (jsTrim (extractedText.getD "").data).length)
        then (⟨extractedText⟩, [eff])
        else (⟨none⟩, [eff])

/-! ## Job Orchestrator (`startProcessing` handler, server.js lines 210-317) -/

/-- One row of `csvData`: the fields the handler reads, plus the remaining CSV
fields carried through by the `...row` spread. -/
structure InputRecord where
  email : Option String
  resume_link : Option String
  extra : List (String × String)
deriving DecidableEq

/-- `RowResult`: the spread input record merged with the three computed fields. -/
structure RowResult where
  row : InputRecord
  pdfExtractionStatus : String
  Rating : Int
  Summary : String
deriving DecidableEq

/-- Events emitted on the socket during one job. -/
inductive Event where
  | update (status : Option String) (report : String)
  | complete (finalData : List RowResult) (report : String)
  | procError (message : String) (error : String)
deriving DecidableEq

/-- A network call attempted during a job, tagged with the row index. -/
inductive NetCall where
  | fetchPdf (row : Nat) (url : String)
  | llm (row : Nat)
deriving DecidableEq

/-- The acquisition phase of one row as run by the handler: `extractedContent`
starts as `{text: null}` and `extractPdfData` runs only for a truthy link. -/
def acquisition (env : Env) (row : InputRecord) : AcqResult × List String :=
  bif jsTruthy row.resume_link then extractPdfData env row.resume_link else (⟨none⟩, [])

/-- Everything one iteration of the processing loop produces for row `i` of `n`. -/
structure RowOut where
  events : List Event
  result : RowResult
  calls : List NetCall
  extractedOk : Bool
  llmCounted : Bool
deriving DecidableEq

/-- One iteration of the `startProcessing` loop (server.js lines 223-292):
progress events, acquisition, conditional scoring, the merged `processedRow`,
and the two counter increments. -/
def rowStep (env : Env) (txtData : String) (n : Nat) (i : Nat) (row : InputRecord) : RowOut :=
  let email := jsOr row.email ("NoEmail_" ++ toString i)
  let e1 := Event.update none
    ("Processing resume " ++ toString (i + 1) ++ "/" ++ toString n ++
      " (Email: " ++ email ++ ")...")
  let acqPair := acquisition env row
  let acqEvents :=
    bif jsTruthy row.resume_link
    then [Event.update none ("Extracting PDF from URL for " ++ email ++ "...")]
    else [Event.update none ("No PDF URL for " ++ email ++ ". Skipping PDF extraction.")]
  let fetchCalls := acqPair.2.map (NetCall.fetchPdf i)
  bif jsTruthy acqPair.1.text then
    let scorePair := compareWithLLM env.configured (env.llmResponse i) acqPair.1 txtData
    { events := [e1] ++ acqEvents ++
        [Event.update none ("Analyzing resume " ++ email ++ " with Gemini LLM...")],
      result := { row := row, pdfExtractionStatus := "Success",
                  Rating := scorePair.1.rating, Summary := scorePair.1.summary },
      calls := fetchCalls ++ (bif scorePair.2 then [NetCall.llm i] else []),
      extractedOk := true,
      llmCounted := decide (0 < scorePair.1.rating) ||
        decide (scorePair.1.summary ≠ "LLM not configured.") }
  else
    { events := [e1] ++ acqEvents,
      result := { row := row, pdfExtractionStatus := "Failed",
                  Rating := 0, Summary := "LLM analysis skipped due to no extracted PDF text." },
      calls := fetchCalls,
      extractedOk := false,
      llmCounted := false }

/-- Accumulated outcome of a loop run that completed. -/
structure LoopOk where
  events : List Event
  results : List RowResult
  se : Nat
  sl : Nat
  calls : List NetCall
deriving DecidableEq

/-- Accumulated outcome of a loop run cut short by a raised error: the events
and calls already produced, and the error message for the catch handler. -/
structure LoopErr where
  events : List Event
  calls : List NetCall
  errMsg : String
deriving DecidableEq

/-- The message of the TypeError raised by `row.email` when `csvData[i]` is not
an object; the one non-row-scoped exception source modelled here. -/
def nullRowMessage : String := "Cannot read properties of undefined (reading email)"

/-- The `for` loop of the handler over `csvData` from index `i`. A `none` entry
models a malformed (null / undefined) row: accessing `row.email` raises, which
the surrounding `try` converts into the error outcome. Row-scoped failures
(fetch, extraction, scoring) never raise: they are absorbed by `rowStep`. -/
def runLoop (env : Env) (txtData : String) (n : Nat) :
    Nat → List (Option InputRecord) → Except LoopErr LoopOk
  | _, [] => .ok ⟨[], [], 0, 0, []⟩
  | _, none :: _ => .error ⟨[], [], nullRowMessage⟩
  | i, some row :: rest =>
    let out := rowStep env txtData n i row
    match runLoop env txtData n (i + 1) rest with
    | .ok k =>
      .ok ⟨out.events ++ k.events, out.result :: k.results,
           (bif out.extractedOk then 1 else 0) + k.se,
           (bif out.llmCounted then 1 else 0) + k.sl,
           out.calls ++ k.calls⟩
    | .error e => .error ⟨out.events ++ e.events, out.calls ++ e.calls, e.errMsg⟩

/-- The closing report line of `processingComplete`. -/
def finalReportMsg (se sl : Nat) : String :=
  "Successfully extracted text from " ++ toString se ++ " PDFs and ran " ++
    toString sl ++ " LLM analyses."

/-- The `startProcessing` socket handler (server.js lines 210-317): the initial
update, the row loop inside `try`, then either the pre-aggregation update and
`processingComplete`, or — when the loop raised — `processingError` with the
generic message and the error description. Returns the emitted events and the
network-call log. -/
def startProcessing (env : Env) (csvData : List (Option InputRecord)) (txtData : String) :
    List Event × List NetCall :=
  let e0 := Event.update (some "analysing all resume")
    "Received data. Initializing analysis process..."
  match runLoop env txtData csvData.length 0 csvData with
  | .ok k =>
    (e0 :: k.events ++
      [Event.update (some "converting to csv") "All resumes processed. Generating final CSV...",
       Event.complete k.results (finalReportMsg k.se k.sl)],
     k.calls)
  | .error e =>
    (e0 :: e.events ++
      [Event.procError "An error occurred during backend processing. Check server logs." e.errMsg],
     e.calls)

/-- The process-wide network oracles, before the startup gate. -/
structure NetEnv where
  fetchBytes : String → Option Bytes
  parsePdf : Bytes → Option (Option String)
  llmResponse : Nat → Option String

/-- Server startup and job service (server.js lines 20-31 and 207-317): a falsy
`GEMINI_API_KEY` hits `process.exit(1)` and no job is ever served (`none`);
otherwise `model` is initialized and every submitted job runs with a
configured scorer. -/
def runServer (geminiApiKey : Option String) (net : NetEnv)
    (jobs : List (List (Option InputRecord) × String)) :
    Option (List (List Event × List NetCall)) :=
  bif !(jsTruthy geminiApiKey) then none
  else some (jobs.map fun j =>
    startProcessing ⟨net.fetchBytes, net.parsePdf, net.llmResponse, true⟩ j.1 j.2)

/-- Terminal events: `processingComplete` and `processingError`. -/
def isTerminalEvent : Event → Bool
  | .update _ _ => false
  | .complete _ _ => true
  | .procError _ _ => true

/-- The predicate under which the source increments `successfulLLMCalls`,
rephrased on the scored row: scoring ran and did not return exactly
`{rating: 0, summary: "LLM not configured."}`. -/
def countedRow (env : Env) (txtData : String) (i : Nat) (row : InputRecord) : Bool :=
  jsTruthy (acquisition env row).1.text &&
    decide ((compareWithLLM env.configured (env.llmResponse i) (acquisition env row).1 txtData).1 ≠
      ⟨0, "LLM not configured."⟩)

/-! ## Concrete sample inputs used by witnesses -/

/-- A job environment whose fetches and backend calls all fail. -/
def env0 : Env := ⟨fun _ => none, fun _ => none, fun _ => none, true⟩

/-- A job environment where fetch and PDF parsing succeed but the backend call
throws. -/
def env1 : Env := ⟨fun _ => some [], fun _ => some (some "resume text"), fun _ => none, true⟩

/-- Process-wide oracles with every effect failing. -/
def net0 : NetEnv := ⟨fun _ => none, fun _ => none, fun _ => none⟩

/-- A sample record with an email and a direct (non-drive) document link. -/
def rec0 : InputRecord := ⟨some "a@b.c", some "https://example.com/cv.pdf", []⟩

/-- A sample record with no document link. -/
def recNL : InputRecord := ⟨some "a@b.c", none, []⟩

/-! ## Lemmas on literal matching and scanning -/

theorem matchLit_some : ∀ (lit l r : List Char), matchLit lit l = some r → l = lit ++ r := by
  intro lit
  induction lit with
  | nil =>
    intro l r h
    simp only [matchLit, Option.some.injEq] at h
    simp [h]
  | cons c cs ih =>
    intro l r h
    cases l with
    | nil => simp [matchLit] at h
    | cons x xs =>
      simp only [matchLit] at h
      cases hcx : (c == x) with
      | false => rw [hcx] at h; simp at h
      | true =>
        rw [hcx] at h
        have hx : c = x := by simpa using hcx
        have := ih xs r h
        simp [← hx, this]

theorem matchCI_some : ∀ (lit l r : List Char), matchCI lit l = some r →
    ∃ pre, l = pre ++ r ∧ ciList lit pre = true := by
  intro lit
  induction lit with
  | nil =>
    intro l r h
    simp only [matchCI, Option.some.injEq] at h
    exact ⟨[], by simp [h], rfl⟩
  | cons c cs ih =>
    intro l r h
    cases l with
    | nil => simp [matchCI] at h
    | cons x xs =>
      simp only [matchCI] at h
      cases hcx : ciEqChar c x with
      | false => rw [hcx] at h; simp at h
      | true =>
        rw [hcx] at h
        obtain ⟨pre, hpre, hci⟩ := ih xs r h
        exact ⟨x :: pre, by simp [hpre], by simp [ciList, hcx, hci]⟩

theorem matchCI_complete : ∀ (lit pre r : List Char), ciList lit pre = true →
    matchCI lit (pre ++ r) = some r := by
  intro lit
  induction lit with
  | nil =>
    intro pre r h
    cases pre with
    | nil => rfl
    | cons x xs => simp [ciList] at h
  | cons c cs ih =>
    intro pre r h
    cases pre with
    | nil => simp [ciList] at h
    | cons x xs =>
      simp only [ciList, Bool.and_eq_true] at h
      simp only [List.cons_append, matchCI, h.1, cond_true]
      exact ih xs r h.2

theorem scanFor_some (p : List Char → Option (List Char)) :
    ∀ (l r : List Char), scanFor p l = some r → ∃ suf, suf <:+ l ∧ p suf = some r := by
  intro l
  induction l with
  | nil =>
    intro r h
    exact ⟨[], List.suffix_refl _, h⟩
  | cons c rest ih =>
    intro r h
    simp only [scanFor] at h
    cases hp : p (c :: rest) with
    | some x =>
      rw [hp] at h
      refine ⟨c :: rest, List.suffix_refl _, ?_⟩
      rw [hp]
      exact h
    | none =>
      rw [hp] at h
      obtain ⟨suf, hs, hps⟩ := ih r h
      exact ⟨suf, hs.trans (List.suffix_cons c rest), hps⟩

theorem scanFor_isSome (p : List Char → Option (List Char)) :
    ∀ (l suf : List Char) (x : List Char), suf <:+ l → p suf = some x →
      (scanFor p l).isSome = true := by
  intro l
  induction l with
  | nil =>
    intro suf x hs hp
    rw [List.suffix_nil] at hs
    subst hs
    simp only [scanFor, hp, Option.isSome_some]
  | cons c rest ih =>
    intro suf x hs hp
    simp only [scanFor]
    cases hpc : p (c :: rest) with
    | some y => simp
    | none =>
      rcases List.suffix_cons_iff.mp hs with h1 | h1
      · subst h1; rw [hp] at hpc; exact absurd hpc (by simp)
      · exact ih suf x h1 hp

theorem orElse_eq_some (a b : Option (List Char)) (x : List Char)
    (h : (a.orElse fun _ => b) = some x) : a = some x ∨ (a = none ∧ b = some x) := by
  cases a with
  | none => right; exact ⟨rfl, by simpa [Option.orElse] using h⟩
  | some y => left; simpa [Option.orElse] using h

theorem orElse_isSome_right (a b : Option (List Char)) (h : b.isSome = true) :
    ((a.orElse fun _ => b)).isSome = true := by
  cases a <;> simpa [Option.orElse]

/-! ## Lemmas on the Link Resolver -/

theorem tryLits_some : ∀ (lits : List (List Char)) (l ds : List Char),
    tryLits lits l = some ds → ∃ lit, lit ∈ lits ∧ tryDrive lit l = some ds := by
  intro lits
  induction lits with
  | nil => intro l ds h; simp [tryLits] at h
  | cons lit rest ih =>
    intro l ds h
    simp only [tryLits] at h
    rcases orElse_eq_some _ _ _ h with h1 | ⟨_, h2⟩
    · exact ⟨lit, List.mem_cons_self _ _, h1⟩
    · obtain ⟨lit2, hm, ht⟩ := ih l ds h2
      exact ⟨lit2, List.mem_cons_of_mem _ hm, ht⟩

theorem tryLits_eq_none (lits : List (List Char)) (l : List Char)
    (h : ∀ lit ∈ lits, tryDrive lit l = none) : tryLits lits l = none := by
  induction lits with
  | nil => rfl
  | cons lit rest ih =>
    simp only [tryLits, h lit (List.mem_cons_self _ _), Option.orElse]
    exact ih fun lit2 hm => h lit2 (List.mem_cons_of_mem _ hm)

theorem tryDrive_some (lit l ds : List Char) (h : tryDrive lit l = some ds) :
    ds ≠ [] ∧ ds.all idChar = true ∧ ∃ rest, l = lit ++ rest := by
  unfold tryDrive at h
  cases hm : matchLit lit l with
  | none => rw [hm] at h; exact absurd h (by simp)
  | some rest =>
    rw [hm] at h
    simp only at h
    cases he : (rest.takeWhile idChar).isEmpty with
    | true => rw [he] at h; simp at h
    | false =>
      rw [he] at h
      simp only [cond_false, Option.some.injEq] at h
      subst h
      refine ⟨by simpa [List.isEmpty_iff] using he, ?_, rest, matchLit_some lit l rest hm⟩
      rw [List.all_eq_true]
      intro c hc
      exact List.mem_takeWhile_imp hc

theorem driveLits_not_all : ∀ lit ∈ driveLits, lit.all idChar = false := by decide

theorem parseDriveAt_eq_none_of_all (l : List Char) (h : l.all idChar = true) :
    parseDriveAt l = none := by
  unfold parseDriveAt
  apply tryLits_eq_none
  intro lit hm
  unfold tryDrive
  cases hml : matchLit lit l with
  | none => rfl
  | some rest =>
    exfalso
    have hl := matchLit_some lit l rest hml
    have hall : lit.all idChar = true := by
      rw [hl, List.all_append, Bool.and_eq_true] at h
      exact h.1
    rw [driveLits_not_all lit hm] at hall
    exact Bool.false_ne_true hall

theorem scanFor_drive_all (l : List Char) (h : l.all idChar = true) :
    scanFor parseDriveAt l = none := by
  induction l with
  | nil => rfl
  | cons c rest ih =>
    simp only [scanFor]
    rw [parseDriveAt_eq_none_of_all _ h]
    rw [List.all_cons, Bool.and_eq_true] at h
    exact ih h.2

theorem googleDriveMatch_some (s : String) (fid : String) (h : googleDriveMatch s = some fid) :
    fid.data.all idChar = true ∧ fid.data ≠ [] := by
  unfold googleDriveMatch at h
  rw [Option.map_eq_some'] at h
  obtain ⟨ds, hscan, hmk⟩ := h
  obtain ⟨suf, _, hp⟩ := scanFor_some parseDriveAt s.data ds hscan
  obtain ⟨lit, _, htd⟩ := tryLits_some driveLits suf ds hp
  obtain ⟨hne, hall, _⟩ := tryDrive_some lit suf ds htd
  have hd : fid.data = ds := by rw [← hmk]
  rw [hd]
  exact ⟨hall, hne⟩

/-- Claim C4: the link resolver rewrites a cloud-drive file view/open URL into
the direct-download URL built from the captured file id, returns every other
string unchanged, and is idempotent (in particular it is the identity on an
already-direct URL, which the drive pattern does not match). -/
theorem resolveLink_rewrite_and_idem (s : String) :
    (googleDriveMatch s = none → resolveLink s = s) ∧
    (∀ fid, googleDriveMatch s = some fid →
      resolveLink s = "https://drive.google.com/uc?export=download&id=" ++ fid) ∧
    resolveLink (resolveLink s) = resolveLink s := by
  refine ⟨fun h => by unfold resolveLink; rw [h], fun fid h => by unfold resolveLink; rw [h], ?_⟩
  cases h : googleDriveMatch s with
  | none =>
    have h1 : resolveLink s = s := by unfold resolveLink; rw [h]
    rw [h1]
    exact h1
  | some fid =>
    have h1 : resolveLink s = "https://drive.google.com/uc?export=download&id=" ++ fid := by
      unfold resolveLink
      rw [h]
    rw [h1]
    have hall := (googleDriveMatch_some s fid h).1
    have h2 : googleDriveMatch ("https://drive.google.com/uc?export=download&id=" ++ fid) = none := by
      unfold googleDriveMatch
      rw [String.data_append]
      have key : scanFor parseDriveAt ("https://drive.google.com/uc?export=download&id=".data ++ fid.data) =
          scanFor parseDriveAt fid.data := rfl
      rw [key, scanFor_drive_all _ hall]
      rfl
    unfold resolveLink
    rw [h2]

/-- Witness for C4 at concrete inputs: a share link is rewritten to the direct
form, a non-drive URL passes through unchanged. -/
theorem resolveLink_rewrite_and_idem_witness :
    resolveLink "https://drive.google.com/file/d/a1B_-9/view?usp=sharing" =
      "https://drive.google.com/uc?export=download&id=a1B_-9" ∧
    resolveLink "https://example.com/cv.pdf" = "https://example.com/cv.pdf" :=
  ⟨(resolveLink_rewrite_and_idem "https://drive.google.com/file/d/a1B_-9/view?usp=sharing").2.1
      "a1B_-9" (by decide),
   (resolveLink_rewrite_and_idem "https://example.com/cv.pdf").1 (by decide)⟩

/-! ## Lemmas on the Scorer response parsing -/

theorem starStrip_decomp (l : List Char) :
    ∃ star, l = star ++ starStrip l ∧ (star = [] ∨ star = ['*']) := by
  cases l with
  | nil => exact ⟨[], rfl, Or.inl rfl⟩
  | cons c t =>
    by_cases hc : c = '*'
    · subst hc
      refine ⟨['*'], ?_, Or.inr rfl⟩
      simp [starStrip]
    · refine ⟨[], ?_, Or.inl rfl⟩
      have : (c == '*') = false := by simpa using hc
      simp [starStrip, this]

theorem ciList_append : ∀ (a b pre : List Char), ciList (a ++ b) pre = true →
    ∃ p1 p2, pre = p1 ++ p2 ∧ ciList a p1 = true ∧ ciList b p2 = true := by
  intro a
  induction a with
  | nil => intro b pre h; exact ⟨[], pre, rfl, rfl, h⟩
  | cons c cs ih =>
    intro b pre h
    cases pre with
    | nil => simp [ciList] at h
    | cons x xs =>
      simp only [List.cons_append, ciList, Bool.and_eq_true] at h
      obtain ⟨p1, p2, hx, hc1, hc2⟩ := ih b xs h.2
      exact ⟨x :: p1, p2, by simp [hx], by simp [ciList, h.1, hc1], hc2⟩

theorem parseRatingAt_some (l ds : List Char) (h : parseRatingAt l = some ds) :
    ∃ lbl sp star post, l = lbl ++ sp ++ star ++ ds ++ post ∧
      (ciList "numeric rating:".data lbl = true ∨ ciList "rating:".data lbl = true) ∧
      sp.all isJsSpace = true ∧ (star = [] ∨ star = ['*']) ∧
      ds ≠ [] ∧ ds.all Char.isDigit = true := by
  unfold parseRatingAt at h
  split at h
  · exact absurd h (by simp)
  next rest hm =>
    have hlbl : ∃ lbl, l = lbl ++ rest ∧
        (ciList "numeric rating:".data lbl = true ∨ ciList "rating:".data lbl = true) := by
      rcases orElse_eq_some _ _ _ hm with h1 | ⟨_, h1⟩
      · obtain ⟨pre, hp, hc⟩ := matchCI_some _ _ _ h1
        exact ⟨pre, hp, Or.inl hc⟩
      · obtain ⟨pre, hp, hc⟩ := matchCI_some _ _ _ h1
        exact ⟨pre, hp, Or.inr hc⟩
    obtain ⟨lbl, hl, hlab⟩ := hlbl
    cases he : ((starStrip (rest.dropWhile isJsSpace)).takeWhile Char.isDigit).isEmpty with
    | true => rw [he] at h; simp at h
    | false =>
      rw [he] at h
      simp only [cond_false, Option.some.injEq] at h
      obtain ⟨star, hstar, hstaror⟩ := starStrip_decomp (rest.dropWhile isJsSpace)
      refine ⟨lbl, rest.takeWhile isJsSpace, star,
        (starStrip (rest.dropWhile isJsSpace)).dropWhile Char.isDigit, ?_, hlab, ?_, hstaror, ?_, ?_⟩
      · rw [hl]
        simp only [List.append_assoc]
        congr 1
        conv_lhs => rw [← List.takeWhile_append_dropWhile (p := isJsSpace) (l := rest)]
        congr 1
        conv_lhs => rw [hstar]
        congr 1
        rw [← h]
        exact (List.takeWhile_append_dropWhile _ _).symm
      · rw [List.all_eq_true]
        intro c hc
        exact List.mem_takeWhile_imp hc
      · rw [← h]
        simpa [List.isEmpty_iff] using he
      · rw [← h, List.all_eq_true]
        intro c hc
        exact List.mem_takeWhile_imp hc

theorem parseSummaryAt_some (l cap : List Char) (h : parseSummaryAt l = some cap) :
    ∃ lbl sp post, l = lbl ++ sp ++ cap ++ post ∧
      (ciList "summarized report:".data lbl = true ∨ ciList "summary:".data lbl = true) ∧
      sp.all isJsSpace = true := by
  unfold parseSummaryAt at h
  split at h
  · exact absurd h (by simp)
  next rest hm =>
    simp only [Option.some.injEq] at h
    have hlbl : ∃ lbl, l = lbl ++ rest ∧
        (ciList "summarized report:".data lbl = true ∨ ciList "summary:".data lbl = true) := by
      rcases orElse_eq_some _ _ _ hm with h1 | ⟨_, h1⟩
      · obtain ⟨pre, hp, hc⟩ := matchCI_some _ _ _ h1
        exact ⟨pre, hp, Or.inl hc⟩
      · obtain ⟨pre, hp, hc⟩ := matchCI_some _ _ _ h1
        exact ⟨pre, hp, Or.inr hc⟩
    obtain ⟨lbl, hl, hlab⟩ := hlbl
    refine ⟨lbl, rest.takeWhile isJsSpace,
      (rest.dropWhile isJsSpace).dropWhile (fun c => !(isLineTerm c)), ?_, hlab, ?_⟩
    · rw [hl]
      simp only [List.append_assoc]
      congr 1
      conv_lhs => rw [← List.takeWhile_append_dropWhile (p := isJsSpace) (l := rest)]
      congr 1
      rw [← h]
      exact (List.takeWhile_append_dropWhile _ _).symm
    · rw [List.all_eq_true]
      intro c hc
      exact List.mem_takeWhile_imp hc

theorem parseLLMResponse_rating (text : String) :
    (parseLLMResponse text).rating =
      match scanFor parseRatingAt text.data with
      | some ds => if 10 < digitsToNat ds then 0 else (digitsToNat ds : Int)
      | none => 0 := by
  unfold parseLLMResponse
  cases h : scanFor parseRatingAt text.data with
  | none => simp [h]
  | some ds =>
    simp only [h]
    have h0 : ¬ ((digitsToNat ds : Int) < 0) := not_lt.mpr (Int.natCast_nonneg _)
    by_cases h10 : 10 < digitsToNat ds
    · have hi : (10 : Int) < (digitsToNat ds : Int) := by exact_mod_cast h10
      simp [h0, hi, h10]
    · have hi : ¬ ((10 : Int) < (digitsToNat ds : Int)) := by exact_mod_cast h10
      simp [h0, hi, h10]

theorem parseLLMResponse_summary (text : String) :
    (parseLLMResponse text).summary =
      match scanFor parseSummaryAt text.data with
      | some cap => String.mk (jsTrim cap)
      | none => "Could not parse summary from LLM response." := by
  unfold parseLLMResponse
  cases h : scanFor parseSummaryAt text.data <;> simp [h]

theorem parseLLMResponse_rating_bounds (text : String) :
    0 ≤ (parseLLMResponse text).rating ∧ (parseLLMResponse text).rating ≤ 10 := by
  rw [parseLLMResponse_rating]
  cases h : scanFor parseRatingAt text.data with
  | none => simp
  | some ds =>
    by_cases h10 : 10 < digitsToNat ds
    · simp [h10]
    · simp only [h10, if_false]
      exact ⟨Int.natCast_nonneg _, by exact_mod_cast Nat.le_of_not_lt h10⟩

theorem compareWithLLM_rating_bounds (cfg : Bool) (resp : Option String) (acq : AcqResult)
    (jd : String) :
    0 ≤ (compareWithLLM cfg resp acq jd).1.rating ∧ (compareWithLLM cfg resp acq jd).1.rating ≤ 10 := by
  unfold compareWithLLM
  cases cfg with
  | false => simp
  | true =>
    cases ht : jsTruthy acq.text with
    | false => simp [ht]
    | true =>
      cases resp with
      | none => simp [ht]
      | some text => simpa [ht] using parseLLMResponse_rating_bounds text

theorem ratingScan_contains (l ds : List Char) (h : scanFor parseRatingAt l = some ds) :
    containsCI l "rating:".data = true := by
  obtain ⟨suf, hsuf, hp⟩ := scanFor_some _ _ _ h
  obtain ⟨lbl, sp, star, post, heq, hlab, -, -, -, -⟩ := parseRatingAt_some suf ds hp
  rcases hlab with hc | hc
  · have hsplit : ciList ("numeric ".data ++ "rating:".data) lbl = true := by
      have hdec : "numeric rating:".data = "numeric ".data ++ "rating:".data := by decide
      rw [← hdec]
      exact hc
    obtain ⟨p1, p2, hpre, -, hc2⟩ := ciList_append _ _ _ hsplit
    have hm := matchCI_complete "rating:".data p2 (sp ++ (star ++ (ds ++ post))) hc2
    have hsuf2 : (p2 ++ (sp ++ (star ++ (ds ++ post)))) <:+ l := by
      refine List.IsSuffix.trans ⟨p1, ?_⟩ hsuf
      rw [heq, hpre]
      simp [List.append_assoc]
    unfold containsCI
    rw [scanFor_isSome _ l _ _ hsuf2 hm]
  · have hm := matchCI_complete "rating:".data lbl (sp ++ (star ++ (ds ++ post))) hc
    have hx : lbl ++ (sp ++ (star ++ (ds ++ post))) = suf := by
      rw [heq]
      simp [List.append_assoc]
    have hsuf2 : (lbl ++ (sp ++ (star ++ (ds ++ post)))) <:+ l := by
      rw [hx]
      exact hsuf
    unfold containsCI
    rw [scanFor_isSome _ l _ _ hsuf2 hm]

theorem summaryScan_contains (l cap : List Char) (h : scanFor parseSummaryAt l = some cap) :
    containsCI l "summarized report:".data = true ∨ containsCI l "summary:".data = true := by
  obtain ⟨suf, hsuf, hp⟩ := scanFor_some _ _ _ h
  obtain ⟨lbl, sp, post, heq, hlab, -⟩ := parseSummaryAt_some suf cap hp
  have hx : lbl ++ (sp ++ (cap ++ post)) = suf := by
    rw [heq]
    simp [List.append_assoc]
  rcases hlab with hc | hc
  · left
    have hm := matchCI_complete "summarized report:".data lbl (sp ++ (cap ++ post)) hc
    have hsuf2 : (lbl ++ (sp ++ (cap ++ post))) <:+ l := by
      rw [hx]
      exact hsuf
    unfold containsCI
    rw [scanFor_isSome _ l _ _ hsuf2 hm]
  · right
    have hm := matchCI_complete "summary:".data lbl (sp ++ (cap ++ post)) hc
    have hsuf2 : (lbl ++ (sp ++ (cap ++ post))) <:+ l := by
      rw [hx]
      exact hsuf
    unfold containsCI
    rw [scanFor_isSome _ l _ _ hsuf2 hm]

theorem summaryScan_of_contains (l : List Char) (h : containsCI l "summary:".data = true) :
    ∃ cap, scanFor parseSummaryAt l = some cap := by
  unfold containsCI at h
  rw [Option.isSome_iff_exists] at h
  obtain ⟨r, hr⟩ := h
  obtain ⟨suf, hsuf, hm⟩ := scanFor_some _ _ _ hr
  have hp : parseSummaryAt suf ≠ none := by
    unfold parseSummaryAt
    cases h1 : matchCI "summarized report:".data suf with
    | some rest1 => simp [Option.orElse, h1]
    | none => simp [Option.orElse, h1, hm]
  obtain ⟨c, hc⟩ := Option.ne_none_iff_exists'.mp hp
  have hs := scanFor_isSome parseSummaryAt l suf c hsuf hc
  rwa [Option.isSome_iff_exists] at hs

/-- Claim C2: for every raw backend text response, the rating of the resulting
`ScoreResult` is an integer in `[0,10]` (likewise for every `compareWithLLM`
result), a response with no rating match yields rating 0, and a response whose
extracted value exceeds 10 yields rating 0 rather than the raw value. -/
theorem scorer_rating_in_range (text : String) (cfg : Bool) (resp : Option String)
    (acq : AcqResult) (jd : String) :
    (0 ≤ (parseLLMResponse text).rating ∧ (parseLLMResponse text).rating ≤ 10) ∧
    (0 ≤ (compareWithLLM cfg resp acq jd).1.rating ∧
      (compareWithLLM cfg resp acq jd).1.rating ≤ 10) ∧
    (scanFor parseRatingAt text.data = none → (parseLLMResponse text).rating = 0) ∧
    (∀ ds, scanFor parseRatingAt text.data = some ds → 10 < digitsToNat ds →
      (parseLLMResponse text).rating = 0) := by
  refine ⟨parseLLMResponse_rating_bounds text, compareWithLLM_rating_bounds cfg resp acq jd, ?_, ?_⟩
  · intro h
    rw [parseLLMResponse_rating]
    simp [h]
  · intro ds h h10
    rw [parseLLMResponse_rating]
    simp [h, h10]

/-- Witness for C2: an out-of-range extracted rating (99) and an absent rating
label both produce rating 0. -/
theorem scorer_rating_in_range_witness :
    (parseLLMResponse "Rating: 99/10 Summary: overqualified").rating = 0 ∧
    (parseLLMResponse "no numbers here").rating = 0 :=
  ⟨(scorer_rating_in_range "Rating: 99/10 Summary: overqualified" true none ⟨none⟩ "").2.2.2
      ['9', '9'] (by decide) (by decide),
   (scorer_rating_in_range "no numbers here" true none ⟨none⟩ "").2.2.1 (by decide)⟩

/-- Claim C5: the rating extraction accepts an integer reached through the
(optionally `Numeric `-prefixed) `Rating:` label, keeps it only when it lies in
`[0,10]`, and every nonzero rating arises from such a labelled integer in the
response text — no other response shape yields a nonzero rating. -/
theorem rating_extraction_shape (text : String) :
    ((parseLLMResponse text).rating ≤ 10 ∧ 0 ≤ (parseLLMResponse text).rating) ∧
    (∀ ds, scanFor parseRatingAt text.data = some ds →
      (parseLLMResponse text).rating =
        if 10 < digitsToNat ds then 0 else (digitsToNat ds : Int)) ∧
    ((parseLLMResponse text).rating ≠ 0 → ∃ pre lbl sp star ds post,
      text.data = pre ++ lbl ++ sp ++ star ++ ds ++ post ∧
      (ciList "numeric rating:".data lbl = true ∨ ciList "rating:".data lbl = true) ∧
      sp.all isJsSpace = true ∧ (star = [] ∨ star = ['*']) ∧
      ds ≠ [] ∧ ds.all Char.isDigit = true ∧
      (digitsToNat ds : Int) = (parseLLMResponse text).rating ∧
      1 ≤ digitsToNat ds ∧ digitsToNat ds ≤ 10) := by
  refine ⟨⟨(parseLLMResponse_rating_bounds text).2, (parseLLMResponse_rating_bounds text).1⟩,
    ?_, ?_⟩
  · intro ds h
    rw [parseLLMResponse_rating]
    simp [h]
  · intro hne
    cases hscan : scanFor parseRatingAt text.data with
    | none =>
      exfalso
      apply hne
      rw [parseLLMResponse_rating]
      simp [hscan]
    | some ds =>
      have hrat : (parseLLMResponse text).rating =
          if 10 < digitsToNat ds then 0 else (digitsToNat ds : Int) := by
        rw [parseLLMResponse_rating]
        simp [hscan]
      by_cases h10 : 10 < digitsToNat ds
      · exfalso
        apply hne
        rw [hrat, if_pos h10]
      · rw [if_neg h10] at hrat
        obtain ⟨suf, hsuf, hp⟩ := scanFor_some _ _ _ hscan
        obtain ⟨lbl, sp, star, post, heq, hlab, hsp, hstar, hds, hdig⟩ :=
          parseRatingAt_some suf ds hp
        obtain ⟨pre, hpre⟩ := hsuf
        have hval : digitsToNat ds ≠ 0 := by
          intro h0
          apply hne
          rw [hrat, h0]
          rfl
        refine ⟨pre, lbl, sp, star, ds, post, ?_, hlab, hsp, hstar, hds, hdig, hrat.symm,
          Nat.one_le_iff_ne_zero.mpr hval, Nat.le_of_not_lt h10⟩
        rw [← hpre, heq]
        simp [List.append_assoc]

/-- Witness for C5: a response with the `Numeric Rating:` variant, an asterisk
and a `/10` suffix yields its in-range rating. -/
theorem rating_extraction_shape_witness :
    (parseLLMResponse "Numeric Rating: *7/10 Summary: fine").rating = 7 := by
  have h := (rating_extraction_shape "Numeric Rating: *7/10 Summary: fine").2.1 ['7'] (by decide)
  rw [h]
  decide

/-- Claim C6 counterexample: for the response
`"Summary: Could not parse summary from LLM response."` there is no `Rating:`
label, the `Summary:` label is present, and yet the parsed summary equals the
fixed fallback string — so "the summary is the fixed string exactly when no
summary label is present" fails in the only-if direction. -/
theorem summary_fallback_counterexample :
    containsCI "Summary: Could not parse summary from LLM response.".data "rating:".data = false ∧
    containsCI "Summary: Could not parse summary from LLM response.".data "summary:".data = true ∧
    (parseLLMResponse "Summary: Could not parse summary from LLM response.").rating = 0 ∧
    (parseLLMResponse "Summary: Could not parse summary from LLM response.").summary =
      "Could not parse summary from LLM response." :=
  ⟨by decide, by decide, by decide, by decide⟩

/-- Claim C6 (amended): for a response with no `Rating:` label the rating is 0;
if additionally no `Summary:` / `Summarized Report:` label is present the
summary is the fixed fallback string; and whenever the summary regex matches —
in particular whenever a `Summary:` label is present — the captured trailing
text (trimmed) becomes the summary even though the rating is missing. The
converse direction of the original claim is false: a captured summary may
coincide with the fallback text (see the counterexample). -/
theorem summary_rating_independence (text : String)
    (hnr : containsCI text.data "rating:".data = false) :
    (parseLLMResponse text).rating = 0 ∧
    (containsCI text.data "summary:".data = false ∧
      containsCI text.data "summarized report:".data = false →
      (parseLLMResponse text).summary = "Could not parse summary from LLM response.") ∧
    (∀ cap, scanFor parseSummaryAt text.data = some cap →
      (parseLLMResponse text).summary = String.mk (jsTrim cap)) ∧
    (containsCI text.data "summary:".data = true →
      ∃ cap, scanFor parseSummaryAt text.data = some cap ∧
        (parseLLMResponse text).summary = String.mk (jsTrim cap)) := by
  refine ⟨?_, ?_, ?_, ?_⟩
  · rw [parseLLMResponse_rating]
    cases hscan : scanFor parseRatingAt text.data with
    | none => rfl
    | some ds =>
      exfalso
      rw [ratingScan_contains _ _ hscan] at hnr
      exact Bool.noConfusion hnr
  · intro ⟨hs1, hs2⟩
    rw [parseLLMResponse_summary]
    cases hscan : scanFor parseSummaryAt text.data with
    | none => rfl
    | some cap =>
      exfalso
      rcases summaryScan_contains _ _ hscan with hc | hc
      · rw [hc] at hs2; exact Bool.noConfusion hs2
      · rw [hc] at hs1; exact Bool.noConfusion hs1
  · intro cap h
    rw [parseLLMResponse_summary]
    simp [h]
  · intro hs
    obtain ⟨cap, hcap⟩ := summaryScan_of_contains text.data hs
    refine ⟨cap, hcap, ?_⟩
    rw [parseLLMResponse_summary]
    simp [hcap]

/-- Witness for C6 (amended) at concrete inputs: a label-free response gets
rating 0 and the fallback summary; a response with only a summary label still
gets its summary captured while the rating stays 0. -/
theorem summary_rating_independence_witness :
    (parseLLMResponse "garbage output").rating = 0 ∧
    (parseLLMResponse "garbage output").summary = "Could not parse summary from LLM response." ∧
    (parseLLMResponse "Summary: solid candidate").summary = "solid candidate" := by
  refine ⟨(summary_rating_independence "garbage output" (by decide)).1,
    (summary_rating_independence "garbage output" (by decide)).2.1 ⟨by decide, by decide⟩, ?_⟩
  have h := (summary_rating_independence "Summary: solid candidate" (by decide)).2.2.1
    "solid candidate".data (by decide)
  rw [h]
  decide

/-! ## Lemmas on acquisition and the row pipeline -/

theorem extractPdfData_text_some (env : Env) (link : Option String) (t : String)
    (h : (extractPdfData env link).1.text = some t) :
    t ≠ "" ∧ jsTrim t.data ≠ [] := by
  cases hl : jsTruthy link with
  | false => simp [extractPdfData, hl] at h
  | true =>
    cases hf : env.fetchBytes (resolveLink (link.getD "")) with
    | none => simp [extractPdfData, hl, hf] at h
    | some buf =>
      cases hp : env.parsePdf buf with
      | none => simp [extractPdfData, hl, hf, hp] at h
      | some extractedText =>
        cases hg : (jsTruthy extractedText &&
            decide (0 < (jsTrim (extractedText.getD "").data).length)) with
        | false => simp [extractPdfData, hl, hf, hp, hg] at h
        | true =>
          have hext : extractedText = some t := by
            have h2 := h
            simp [extractPdfData, hl, hf, hp, hg] at h2
            exact h2
          rw [hext] at hg
          simp only [jsTruthy, Option.getD_some, Bool.and_eq_true, bne_iff_ne,
            decide_eq_true_eq] at hg
          refine ⟨hg.1, ?_⟩
          intro hnil
          rw [hnil] at hg
          simp at hg

theorem acquisition_text_some (env : Env) (row : InputRecord) (t : String)
    (h : (acquisition env row).1.text = some t) :
    t ≠ "" ∧ jsTrim t.data ≠ [] := by
  unfold acquisition at h
  cases hl : jsTruthy row.resume_link with
  | false =>
    rw [hl] at h
    simp at h
  | true =>
    rw [hl] at h
    exact extractPdfData_text_some env row.resume_link t h

theorem rowStep_row (env : Env) (txt : String) (n i : Nat) (row : InputRecord) :
    (rowStep env txt n i row).result.row = row := by
  cases ht : jsTruthy (acquisition env row).1.text <;> simp [rowStep, ht]

theorem rowStep_status (env : Env) (txt : String) (n i : Nat) (row : InputRecord) :
    (rowStep env txt n i row).result.pdfExtractionStatus =
      (bif jsTruthy (acquisition env row).1.text then "Success" else "Failed") := by
  cases ht : jsTruthy (acquisition env row).1.text <;> simp [rowStep, ht]

theorem rowStep_events_update (env : Env) (txt : String) (n i : Nat) (row : InputRecord) :
    ∀ e ∈ (rowStep env txt n i row).events, isTerminalEvent e = false := by
  intro e he
  cases ht : jsTruthy (acquisition env row).1.text with
  | true =>
    cases hl : jsTruthy row.resume_link with
    | true =>
      simp [rowStep, ht, hl] at he
      rcases he with rfl | rfl | rfl <;> rfl
    | false =>
      simp [rowStep, ht, hl] at he
      rcases he with rfl | rfl | rfl <;> rfl
  | false =>
    cases hl : jsTruthy row.resume_link with
    | true =>
      simp [rowStep, ht, hl] at he
      rcases he with rfl | rfl <;> rfl
    | false =>
      simp [rowStep, ht, hl] at he
      rcases he with rfl | rfl <;> rfl

theorem rowStep_no_link (env : Env) (txt : String) (n i : Nat) (row : InputRecord)
    (h : jsTruthy row.resume_link = false) :
    (rowStep env txt n i row).calls = [] ∧
    (rowStep env txt n i row).result.pdfExtractionStatus = "Failed" ∧
    (rowStep env txt n i row).result.Rating = 0 ∧
    (rowStep env txt n i row).result.Summary =
      "LLM analysis skipped due to no extracted PDF text." := by
  have hacq : acquisition env row = (⟨none⟩, []) := by
    unfold acquisition
    rw [h]
    rfl
  simp [rowStep, hacq, h, jsTruthy]

theorem rowStep_llmCounted (env : Env) (txt : String) (n i : Nat) (row : InputRecord) :
    (rowStep env txt n i row).llmCounted = countedRow env txt i row := by
  cases ht : jsTruthy (acquisition env row).1.text with
  | false => simp [rowStep, ht, countedRow]
  | true =>
    simp only [rowStep, ht, countedRow, cond_true, Bool.true_and]
    set rep := (compareWithLLM env.configured (env.llmResponse i)
      (acquisition env row).1 txt).1 with hrep
    have h0 : 0 ≤ rep.rating := by
      rw [hrep]
      exact (compareWithLLM_rating_bounds _ _ _ _).1
    have hiff : (rep = (⟨0, "LLM not configured."⟩ : ScoreResult)) ↔
        (rep.rating = 0 ∧ rep.summary = "LLM not configured.") := by
      constructor
      · intro hh
        rw [hh]
        exact ⟨rfl, rfl⟩
      · intro hh
        obtain ⟨h1, h2⟩ := hh
        have he : rep = ⟨rep.rating, rep.summary⟩ := rfl
        rw [he, h1, h2]
    have hor : ∀ (p q : Prop) (_ : Decidable p) (_ : Decidable q),
        decide (p ∨ q) = (decide p || decide q) := by
      intro p q hp hq
      by_cases h1 : p <;> by_cases h2 : q <;> simp [h1, h2]
    rw [← hor _ _ inferInstance inferInstance, decide_eq_decide]
    constructor
    · rintro (h1 | h2) hh
      · rw [hiff] at hh
        exact absurd hh.1 (by omega)
      · rw [hiff] at hh
        exact h2 hh.2
    · intro hh
      by_cases hr0 : rep.rating = 0
      · right
        intro hs
        exact hh (hiff.mpr ⟨hr0, hs⟩)
      · left
        omega

theorem countP_ext {α : Type} (p q : α → Bool) (h : ∀ a, p a = q a) :
    ∀ l : List α, l.countP p = l.countP q := by
  intro l
  induction l with
  | nil => rfl
  | cons a t ih => simp [List.countP_cons, h a, ih]

/-! ## Lemmas on the job loop -/

theorem runLoop_map_some (env : Env) (txt : String) (n : Nat) (rows : List InputRecord) :
    ∀ i : Nat, ∃ k : LoopOk,
      runLoop env txt n i (rows.map some) = .ok k ∧
      k.results.length = rows.length ∧
      (∀ j, k.results.get? j =
        (rows.get? j).map fun row => (rowStep env txt n (i + j) row).result) ∧
      (∀ e ∈ k.events, isTerminalEvent e = false) ∧
      k.sl = (rows.enumFrom i).countP fun p => (rowStep env txt n p.1 p.2).llmCounted := by
  induction rows with
  | nil =>
    intro i
    refine ⟨⟨[], [], 0, 0, []⟩, rfl, rfl, ?_, ?_, ?_⟩
    · intro j
      simp
    · intro e he
      simp at he
    · simp [List.enumFrom]
  | cons row rest ih =>
    intro i
    obtain ⟨k, hk, hlen, hget, hev, hsl⟩ := ih (i + 1)
    refine ⟨⟨(rowStep env txt n i row).events ++ k.events,
      (rowStep env txt n i row).result :: k.results,
      (bif (rowStep env txt n i row).extractedOk then 1 else 0) + k.se,
      (bif (rowStep env txt n i row).llmCounted then 1 else 0) + k.sl,
      (rowStep env txt n i row).calls ++ k.calls⟩, ?_, ?_, ?_, ?_, ?_⟩
    · simp only [List.map_cons, runLoop, hk]
    · simp [hlen]
    · intro j
      cases j with
      | zero => simp
      | succ j2 =>
        have h2 := hget j2
        simp only [List.get?_cons_succ]
        rw [h2]
        have harith : i + 1 + j2 = i + (j2 + 1) := by omega
        rw [harith]
    · intro e he
      rcases List.mem_append.mp he with h1 | h1
      · exact rowStep_events_update env txt n i row e h1
      · exact hev e h1
    · simp only [List.enumFrom, List.countP_cons, hsl]
      cases hlc : (rowStep env txt n i row).llmCounted <;> simp [hlc] <;> omega

theorem runLoop_error_of_none (env : Env) (txt : String) (n : Nat) :
    ∀ (csv : List (Option InputRecord)) (i : Nat), none ∈ csv →
      ∃ er : LoopErr, runLoop env txt n i csv = .error er ∧ er.errMsg = nullRowMessage ∧
        ∀ e ∈ er.events, isTerminalEvent e = false := by
  intro csv
  induction csv with
  | nil =>
    intro i h
    simp at h
  | cons hd rest ih =>
    intro i h
    cases hd with
    | none =>
      refine ⟨⟨[], [], nullRowMessage⟩, rfl, rfl, ?_⟩
      intro e he
      simp at he
    | some row =>
      have hmem : none ∈ rest := by
        rcases List.mem_cons.mp h with h1 | h1
        · exact absurd h1 (by simp)
        · exact h1
      obtain ⟨er, her, hmsg, hev⟩ := ih (i + 1) hmem
      refine ⟨⟨(rowStep env txt n i row).events ++ er.events,
        (rowStep env txt n i row).calls ++ er.calls, er.errMsg⟩, ?_, hmsg, ?_⟩
      · simp only [runLoop, her]
      · intro e he
        rcases List.mem_append.mp he with h1 | h1
        · exact rowStep_events_update env txt n i row e h1
        · exact hev e h1

theorem runLoop_ok_no_terminal (env : Env) (txt : String) (n : Nat) :
    ∀ (csv : List (Option InputRecord)) (i : Nat) (k : LoopOk),
      runLoop env txt n i csv = .ok k → ∀ e ∈ k.events, isTerminalEvent e = false := by
  intro csv
  induction csv with
  | nil =>
    intro i k h e he
    simp only [runLoop] at h
    injection h with h
    subst h
    simp at he
  | cons hd rest ih =>
    intro i k h e he
    cases hd with
    | none => simp [runLoop] at h
    | some row =>
      simp only [runLoop] at h
      split at h
      next k2 hr =>
        injection h with h
        subst h
        rcases List.mem_append.mp he with h1 | h1
        · exact rowStep_events_update env txt n i row e h1
        · exact ih (i + 1) k2 hr e h1
      next er2 hr => simp at h

theorem runLoop_err_no_terminal (env : Env) (txt : String) (n : Nat) :
    ∀ (csv : List (Option InputRecord)) (i : Nat) (er : LoopErr),
      runLoop env txt n i csv = .error er → ∀ e ∈ er.events, isTerminalEvent e = false := by
  intro csv
  induction csv with
  | nil =>
    intro i er h
    simp [runLoop] at h
  | cons hd rest ih =>
    intro i er h e he
    cases hd with
    | none =>
      simp only [runLoop] at h
      injection h with h
      subst h
      simp at he
    | some row =>
      simp only [runLoop] at h
      split at h
      next k2 hr => simp at h
      next er2 hr =>
        injection h with h
        subst h
        rcases List.mem_append.mp he with h1 | h1
        · exact rowStep_events_update env txt n i row e h1
        · exact ih (i + 1) er2 hr e h1

/-- Claim C1: for every batch processed without a non-row-scoped exception
(modelled as a batch of well-formed rows), the final report holds exactly one
RowResult per input record, in input order, whatever the fetch / extraction /
scoring oracles do. -/
theorem report_one_result_per_row (env : Env) (rows : List InputRecord) (txt : String) :
    ∃ results msg, Event.complete results msg ∈ (startProcessing env (rows.map some) txt).1 ∧
      results.length = rows.length ∧
      ∀ j row, rows.get? j = some row → ∃ res, results.get? j = some res ∧ res.row = row := by
  obtain ⟨k, hk, hlen, hget, -, -⟩ := runLoop_map_some env txt (rows.map some).length rows 0
  refine ⟨k.results, finalReportMsg k.se k.sl, ?_, hlen, ?_⟩
  · unfold startProcessing
    rw [hk]
    simp
  · intro j row hj
    have h2 := hget j
    rw [hj] at h2
    exact ⟨_, h2, rowStep_row env txt (rows.map some).length (0 + j) row⟩

/-- Witness for C1 on a one-row batch with an always-failing environment. -/
theorem report_one_result_per_row_witness :
    ∃ results msg, Event.complete results msg ∈ (startProcessing env0 ([rec0].map some) "jd").1 ∧
      results.length = [rec0].length ∧
      ∀ j row, [rec0].get? j = some row → ∃ res, results.get? j = some res ∧ res.row = row :=
  report_one_result_per_row env0 [rec0] "jd"

/-- Claim C3: a row's extraction status is `"Success"` exactly when the
acquisition phase produced text that is present and non-empty after trimming,
and otherwise it is `"Failed"`. -/
theorem extraction_status_iff (env : Env) (txt : String) (n i : Nat) (row : InputRecord) :
    ((rowStep env txt n i row).result.pdfExtractionStatus = "Success" ↔
      ∃ t, (acquisition env row).1.text = some t ∧ jsTrim t.data ≠ []) ∧
    ((rowStep env txt n i row).result.pdfExtractionStatus ≠ "Success" →
      (rowStep env txt n i row).result.pdfExtractionStatus = "Failed") := by
  rw [rowStep_status]
  cases ht : jsTruthy (acquisition env row).1.text with
  | true =>
    refine ⟨⟨fun _ => ?_, fun _ => rfl⟩, fun h => absurd rfl h⟩
    cases hx : (acquisition env row).1.text with
    | none =>
      rw [hx] at ht
      exact Bool.noConfusion ht
    | some t => exact ⟨t, rfl, (acquisition_text_some env row t hx).2⟩
  | false =>
    refine ⟨⟨fun h => absurd h (by decide), ?_⟩, fun _ => rfl⟩
    rintro ⟨t, hx, htr⟩
    rw [hx] at ht
    have ht2 : t = "" := by simpa [jsTruthy] using ht
    rw [ht2] at htr
    exact absurd rfl htr

/-- Witness for C3: with failing fetches the sample row has status `"Failed"`. -/
theorem extraction_status_iff_witness :
    ((rowStep env0 "jd" 1 0 rec0).result.pdfExtractionStatus = "Success" ↔
      ∃ t, (acquisition env0 rec0).1.text = some t ∧ jsTrim t.data ≠ []) ∧
    (rowStep env0 "jd" 1 0 rec0).result.pdfExtractionStatus = "Failed" :=
  ⟨(extraction_status_iff env0 "jd" 1 0 rec0).1,
   (extraction_status_iff env0 "jd" 1 0 rec0).2 (by decide)⟩

/-- Claim C7: a row whose document link is absent or empty triggers no network
call at all (neither fetch nor scoring), gets status `"Failed"`, rating 0 and
the fixed skip summary, and still occupies its position in the final report. -/
theorem no_link_row_skipped (env : Env) (rows : List InputRecord) (txt : String) (i : Nat)
    (row : InputRecord) (hrow : rows.get? i = some row)
    (hlink : jsTruthy row.resume_link = false) :
    (rowStep env txt rows.length i row).calls = [] ∧
    (rowStep env txt rows.length i row).result.pdfExtractionStatus = "Failed" ∧
    (rowStep env txt rows.length i row).result.Rating = 0 ∧
    (rowStep env txt rows.length i row).result.Summary =
      "LLM analysis skipped due to no extracted PDF text." ∧
    ∃ results msg, Event.complete results msg ∈ (startProcessing env (rows.map some) txt).1 ∧
      results.get? i = some (rowStep env txt rows.length i row).result := by
  obtain ⟨hc, hs, hr, hsum⟩ := rowStep_no_link env txt rows.length i row hlink
  refine ⟨hc, hs, hr, hsum, ?_⟩
  obtain ⟨k, hk, -, hget, -, -⟩ := runLoop_map_some env txt (rows.map some).length rows 0
  rw [List.length_map] at hk hget
  refine ⟨k.results, finalReportMsg k.se k.sl, ?_, ?_⟩
  · unfold startProcessing
    rw [List.length_map, hk]
    simp
  · rw [hget i, hrow]
    simp

/-- Witness for C7 on a one-row batch whose record has no link. -/
theorem no_link_row_skipped_witness :
    (rowStep env0 "jd" [recNL].length 0 recNL).calls = [] ∧
    (rowStep env0 "jd" [recNL].length 0 recNL).result.pdfExtractionStatus = "Failed" ∧
    (rowStep env0 "jd" [recNL].length 0 recNL).result.Rating = 0 ∧
    (rowStep env0 "jd" [recNL].length 0 recNL).result.Summary =
      "LLM analysis skipped due to no extracted PDF text." ∧
    ∃ results msg, Event.complete results msg ∈ (startProcessing env0 ([recNL].map some) "jd").1 ∧
      results.get? 0 = some (rowStep env0 "jd" [recNL].length 0 recNL).result :=
  no_link_row_skipped env0 [recNL] "jd" 0 recNL rfl rfl

/-- Claim C8: every job emits exactly one terminal event; when the loop raises
a non-row-scoped error (a malformed row), that terminal event is a single
`processingError` with the generic message plus the error description, and no
`processingComplete` — hence no partial report — is emitted. -/
theorem one_terminal_event (env : Env) (csv : List (Option InputRecord)) (txt : String) :
    ((startProcessing env csv txt).1.filter isTerminalEvent).length = 1 ∧
    (none ∈ csv →
      (∃ m, Event.procError "An error occurred during backend processing. Check server logs." m ∈
        (startProcessing env csv txt).1) ∧
      ∀ r m, Event.complete r m ∉ (startProcessing env csv txt).1) := by
  cases hrun : runLoop env txt csv.length 0 csv with
  | ok k =>
    have hev := runLoop_ok_no_terminal env txt csv.length csv 0 k hrun
    have hproc : (startProcessing env csv txt).1 =
        Event.update (some "analysing all resume") "Received data. Initializing analysis process..." ::
        k.events ++
        [Event.update (some "converting to csv") "All resumes processed. Generating final CSV...",
         Event.complete k.results (finalReportMsg k.se k.sl)] := by
      unfold startProcessing
      rw [hrun]
    constructor
    · rw [hproc]
      have hnil : k.events.filter isTerminalEvent = [] := by
        apply List.filter_eq_nil.mpr
        intro e he
        simp [hev e he]
      simp [List.filter_cons, List.filter_append, hnil, isTerminalEvent]
    · intro hmem
      exfalso
      obtain ⟨er, her, -, -⟩ := runLoop_error_of_none env txt csv.length csv 0 hmem
      rw [her] at hrun
      exact Except.noConfusion hrun
  | error er =>
    have hev := runLoop_err_no_terminal env txt csv.length csv 0 er hrun
    have hproc : (startProcessing env csv txt).1 =
        Event.update (some "analysing all resume") "Received data. Initializing analysis process..." ::
        er.events ++
        [Event.procError "An error occurred during backend processing. Check server logs."
          er.errMsg] := by
      unfold startProcessing
      rw [hrun]
    constructor
    · rw [hproc]
      have hnil : er.events.filter isTerminalEvent = [] := by
        apply List.filter_eq_nil.mpr
        intro e he
        simp [hev e he]
      simp [List.filter_cons, List.filter_append, hnil, isTerminalEvent]
    · intro hmem
      constructor
      · refine ⟨er.errMsg, ?_⟩
        rw [hproc]
        simp
      · intro r m hc
        rw [hproc] at hc
        rcases List.mem_cons.mp hc with h1 | h1
        · exact Event.noConfusion h1
        rcases List.mem_append.mp h1 with h2 | h2
        · have h3 := hev _ h2
          simp [isTerminalEvent] at h3
        · exact Event.noConfusion (List.mem_singleton.mp h2)

/-- Witness for C8 on a batch with one malformed row. -/
theorem one_terminal_event_witness :
    ((startProcessing env0 [none] "jd").1.filter isTerminalEvent).length = 1 ∧
    (∃ m, Event.procError "An error occurred during backend processing. Check server logs." m ∈
      (startProcessing env0 [none] "jd").1) ∧
    ∀ r m, Event.complete r m ∉ (startProcessing env0 [none] "jd").1 :=
  ⟨(one_terminal_event env0 [none] "jd").1,
   ((one_terminal_event env0 [none] "jd").2 (by simp)).1,
   ((one_terminal_event env0 [none] "jd").2 (by simp)).2⟩

/-- Claim C9: a falsy scoring credential is fatal at startup — the server
serves no job at all — and the unconfigured scorer branch returns rating 0
with the non-configuration summary and attempts no backend call. -/
theorem unconfigured_no_jobs (geminiApiKey : Option String) (net : NetEnv)
    (jobs : List (List (Option InputRecord) × String))
    (h : jsTruthy geminiApiKey = false) :
    runServer geminiApiKey net jobs = none ∧
    ∀ (resp : Option String) (acq : AcqResult) (jd : String),
      compareWithLLM false resp acq jd = (⟨0, "LLM not configured."⟩, false) := by
  refine ⟨?_, fun resp acq jd => rfl⟩
  unfold runServer
  rw [h]
  rfl

/-- Witness for C9 with an absent credential. -/
theorem unconfigured_no_jobs_witness :
    runServer none net0 [] = none ∧
    ∀ (resp : Option String) (acq : AcqResult) (jd : String),
      compareWithLLM false resp acq jd = (⟨0, "LLM not configured."⟩, false) :=
  unconfigured_no_jobs none net0 [] rfl

/-- Claim C10: the `successfulLLMCalls` number in the closing report message
counts exactly the scored rows whose ScoreResult differs from
`{rating: 0, summary: "LLM not configured."}`; in particular a scored row
whose backend call threw yields `{rating: 0, summary: "Failed to get LLM
report due to API error."}` and is still counted. -/
theorem llm_counter_counts_api_errors (env : Env) (rows : List InputRecord) (txt : String) :
    (∃ results se, Event.complete results
        (finalReportMsg se ((rows.enum).countP fun p => countedRow env txt p.1 p.2)) ∈
      (startProcessing env (rows.map some) txt).1) ∧
    (∀ i row, env.configured = true → env.llmResponse i = none →
      jsTruthy (acquisition env row).1.text = true →
      countedRow env txt i row = true ∧
      (compareWithLLM env.configured (env.llmResponse i) (acquisition env row).1 txt).1 =
        ⟨0, "Failed to get LLM report due to API error."⟩) := by
  constructor
  · obtain ⟨k, hk, -, -, -, hsl⟩ := runLoop_map_some env txt (rows.map some).length rows 0
    have hsl2 : k.sl = (rows.enum).countP fun p => countedRow env txt p.1 p.2 := by
      rw [hsl]
      have he : rows.enum = rows.enumFrom 0 := rfl
      rw [he]
      exact countP_ext _ _
        (fun (a : Nat × InputRecord) => rowStep_llmCounted env txt (rows.map some).length a.1 a.2) _
    refine ⟨k.results, k.se, ?_⟩
    rw [← hsl2]
    unfold startProcessing
    rw [hk]
    simp
  · intro i row hcfg hresp htext
    have hcall : compareWithLLM true none (acquisition env row).1 txt =
        (⟨0, "Failed to get LLM report due to API error."⟩, true) := by
      unfold compareWithLLM
      rw [htext]
      rfl
    constructor
    · unfold countedRow
      rw [hcfg, hresp, htext, hcall]
      decide
    · rw [hcfg, hresp, hcall]

/-- Witness for C10: a row that fetched and extracted text but whose backend
call threw is counted as a successful scoring. -/
theorem llm_counter_counts_api_errors_witness :
    countedRow env1 "jd" 0 rec0 = true ∧
    (compareWithLLM env1.configured (env1.llmResponse 0) (acquisition env1 rec0).1 "jd").1 =
      ⟨0, "Failed to get LLM report due to API error."⟩ :=
  (llm_counter_counts_api_errors env1 [rec0] "jd").2 0 rec0 rfl rfl (by decide)
